import Mathlib

/-!
Verification of the JARNOX-ALGO-TRADING server core (src/server.js), shallowly
embedded in Lean 4. JavaScript numbers are modelled as exact rationals (ℚ);
bar timestamps as integers (ℤ). Option models JS null/absent fields.
Math.sqrt (used only inside the Bollinger band computation) is abstracted as
an explicit function parameter, since no other part of the logic depends on
its value; every stated property is proved for an arbitrary such function.
-/

/-- A price bar. In server.js a bar is `{time, open, high, low, close, volume}`;
the `open` field is renamed `opn` here because `open` is a Lean keyword. -/
structure Bar where
  time : ℤ
  opn : ℚ
  high : ℚ
  low : ℚ
  close : ℚ
  volume : ℚ
deriving DecidableEq

instance : Inhabited Bar := ⟨⟨0, 0, 0, 0, 0, 0⟩⟩

/-- server.js: `const MAX_CANDLES_CACHE = 2000`. -/
def MAX_CANDLES_CACHE : ℕ := 2000

/-- The replace-or-append part of the cache merge (both in the `/ingest`
handler, server.js lines 505-507, and the feeder message handler, lines
838-843): if the last stored bar has the same `time` as the incoming bar,
replace it in place, otherwise append the incoming bar. -/
def mergeRaw (arr : List Bar) (ck : Bar) : List Bar :=
  match arr.getLast? with
  | some lastBar => if lastBar.time = ck.time then arr.dropLast ++ [ck] else arr ++ [ck]
  | none => arr ++ [ck]

/-- Cache merge as performed by the `/ingest` handler (server.js lines 505-508):
replace-or-append, then evict the oldest bar whenever the length exceeds
`MAX_CANDLES_CACHE` (the eviction check runs after either branch there). -/
def mergeIngest (arr : List Bar) (ck : Bar) : List Bar :=
  let arr1 := mergeRaw arr ck
  if MAX_CANDLES_CACHE < arr1.length then arr1.tail else arr1

/-- Cache merge as performed by the feeder message handler (server.js lines
838-844): same replace-or-append logic, but the eviction check runs only in
the append branch. -/
def mergeFeeder (arr : List Bar) (ck : Bar) : List Bar :=
  match arr.getLast? with
  | some lastBar =>
    if lastBar.time = ck.time then arr.dropLast ++ [ck]
    else
      let arr1 := arr ++ [ck]
      if MAX_CANDLES_CACHE < arr1.length then arr1.tail else arr1
  | none =>
    let arr1 := arr ++ [ck]
    if MAX_CANDLES_CACHE < arr1.length then arr1.tail else arr1

instance : IsTrans Bar (fun a b => a.time < b.time) :=
  ⟨fun _ _ _ h1 h2 => lt_trans h1 h2⟩

lemma mergeRaw_length_le (arr : List Bar) (ck : Bar) :
    (mergeRaw arr ck).length ≤ arr.length + 1 := by
  unfold mergeRaw
  rcases hg : arr.getLast? with _ | lastBar
  · simp
  · have hne : arr ≠ [] := by intro he; subst he; simp at hg
    have h1 : 1 ≤ arr.length := List.length_pos.mpr hne
    simp only [hg]
    split <;> simp [List.length_dropLast] <;> omega

lemma mergeRaw_ne_nil (arr : List Bar) (ck : Bar) : mergeRaw arr ck ≠ [] := by
  unfold mergeRaw
  rcases hg : arr.getLast? with _ | lastBar
  · simp
  · simp only [hg]
    split <;> simp

lemma mergeRaw_getLast (arr : List Bar) (ck : Bar) :
    (mergeRaw arr ck).getLast? = some ck := by
  unfold mergeRaw
  rcases hg : arr.getLast? with _ | lastBar
  · simp
  · simp only [hg]
    split <;> simp

lemma mergeIngest_length (arr : List Bar) (ck : Bar)
    (h : arr.length ≤ MAX_CANDLES_CACHE) :
    (mergeIngest arr ck).length ≤ MAX_CANDLES_CACHE := by
  have h1 := mergeRaw_length_le arr ck
  simp only [mergeIngest]
  split <;> rename_i h2 <;> simp_all [List.length_tail] <;> omega

lemma tail_getLast (l : List Bar) (h : 2 ≤ l.length) : l.tail.getLast? = l.getLast? := by
  rcases l with _ | ⟨x, xs⟩
  · simp at h
  · rcases xs with _ | ⟨y, ys⟩
    · simp at h
    · simp [List.getLast?_cons_cons]

lemma mergeIngest_getLast (arr : List Bar) (ck : Bar) :
    (mergeIngest arr ck).getLast? = some ck := by
  simp only [mergeIngest]
  split
  · rename_i h2
    rw [tail_getLast _ (by simp [MAX_CANDLES_CACHE] at h2 ⊢; omega)]
    exact mergeRaw_getLast arr ck
  · exact mergeRaw_getLast arr ck

lemma mergeRaw_chain (arr : List Bar) (ck : Bar)
    (hs : List.Chain' (fun a b => a.time < b.time) arr)
    (hl : ∀ lb, arr.getLast? = some lb → lb.time ≤ ck.time) :
    List.Chain' (fun a b => a.time < b.time) (mergeRaw arr ck) := by
  unfold mergeRaw
  rcases hg : arr.getLast? with _ | lastBar
  · have : arr = [] := List.getLast?_eq_none_iff.mp hg
    subst this
    simp
  · simp only [hg]
    have hne : arr ≠ [] := by
      intro he; subst he; simp at hg
    have hlb : arr.getLast hne = lastBar := by
      have h0 := List.getLast?_eq_getLast arr hne
      rw [h0, Option.some_inj] at hg
      exact hg
    have harr : arr.dropLast ++ [lastBar] = arr := by
      rw [← hlb]
      exact List.dropLast_concat_getLast hne
    split
    · rename_i heq
      rw [← harr] at hs
      rw [List.chain'_append] at hs ⊢
      refine ⟨hs.1, List.chain'_singleton ck, ?_⟩
      intro x hx y hy
      simp only [List.head?_cons, Option.mem_def, Option.some.injEq] at hy
      subst hy
      have := hs.2.2 x hx lastBar (by simp)
      omega
    · rename_i hneq
      rw [List.chain'_append]
      refine ⟨hs, List.chain'_singleton ck, ?_⟩
      intro x hx y hy
      simp only [List.head?_cons, Option.mem_def, Option.some.injEq] at hy
      subst hy
      have hxl : lastBar = x := by
        rw [Option.mem_def, hg, Option.some_inj] at hx
        exact hx
      subst hxl
      have h1 := hl _ hg
      have h2 : lastBar.time ≠ ck.time := hneq
      omega

lemma mergeIngest_chain (arr : List Bar) (ck : Bar)
    (hs : List.Chain' (fun a b => a.time < b.time) arr)
    (hl : ∀ lb, arr.getLast? = some lb → lb.time ≤ ck.time) :
    List.Chain' (fun a b => a.time < b.time) (mergeIngest arr ck) := by
  have step := mergeRaw_chain arr ck hs hl
  simp only [mergeIngest]
  split
  · exact step.sublist (List.tail_sublist _)
  · exact step

lemma foldl_mergeIngest_length (bars : List Bar) :
    ∀ acc : List Bar, acc.length ≤ MAX_CANDLES_CACHE →
      (bars.foldl mergeIngest acc).length ≤ MAX_CANDLES_CACHE := by
  induction bars with
  | nil => intro acc h; simpa using h
  | cons b rest ih =>
    intro acc h
    exact ih (mergeIngest acc b) (mergeIngest_length acc b h)

lemma foldl_mergeIngest_chain (bars : List Bar)
    (hbars : List.Chain' (fun a b => a.time ≤ b.time) bars) :
    ∀ acc : List Bar, List.Chain' (fun a b => a.time < b.time) acc →
      (∀ lb, acc.getLast? = some lb → ∀ hb, bars.head? = some hb → lb.time ≤ hb.time) →
      List.Chain' (fun a b => a.time < b.time) (bars.foldl mergeIngest acc) := by
  induction bars with
  | nil => intro acc hacc _; simpa using hacc
  | cons b rest ih =>
    intro acc hacc hlast
    have hrest : List.Chain' (fun a b => a.time ≤ b.time) rest := hbars.tail
    have hacc' : List.Chain' (fun a b => a.time < b.time) (mergeIngest acc b) :=
      mergeIngest_chain acc b hacc (fun lb hlb => hlast lb hlb b (by simp))
    refine ih hrest (mergeIngest acc b) hacc' ?_
    intro lb hlb hb hhb
    rw [mergeIngest_getLast acc b, Option.some_inj] at hlb
    subst hlb
    rcases rest with _ | ⟨r, rs⟩
    · simp at hhb
    · simp only [List.head?_cons, Option.some.injEq] at hhb
      subst hhb
      exact (List.chain'_cons.mp hbars).1

lemma mergeFeeder_eq_mergeIngest (arr : List Bar) (ck : Bar)
    (h : arr.length ≤ MAX_CANDLES_CACHE) :
    mergeFeeder arr ck = mergeIngest arr ck := by
  simp only [mergeFeeder, mergeIngest, mergeRaw]
  rcases hg : arr.getLast? with _ | lastBar
  · simp
  · have hne : arr ≠ [] := by intro he; subst he; simp at hg
    have h1 : 1 ≤ arr.length := List.length_pos.mpr hne
    simp only [hg]
    by_cases heq : lastBar.time = ck.time
    · simp only [if_pos heq]
      have hlen : (arr.dropLast ++ [ck]).length = arr.length := by
        simp [List.length_dropLast]
        omega
      rw [if_neg]
      rw [hlen]
      omega
    · simp only [if_neg heq]

lemma foldl_mergeFeeder_eq (bars : List Bar) :
    ∀ acc : List Bar, acc.length ≤ MAX_CANDLES_CACHE →
      bars.foldl mergeFeeder acc = bars.foldl mergeIngest acc := by
  induction bars with
  | nil => intro acc _; rfl
  | cons b rest ih =>
    intro acc h
    simp only [List.foldl_cons]
    rw [mergeFeeder_eq_mergeIngest acc b h]
    exact ih (mergeIngest acc b) (mergeIngest_length acc b h)

/-- C1: For every sequence of bars passed to the candle-cache merge operation
(same-time bars replace the last stored bar in place, otherwise the bar is
appended and the oldest is evicted past capacity), the cache built up from
empty holds at most `MAX_CANDLES_CACHE = 2000` bars after every merge, the
feeder-side merge builds the same cache as the ingest-side merge, and when
the incoming bar times are non-decreasing the stored bars are in strictly
ascending time order. -/
theorem c1_cache_capacity_and_order (bars : List Bar) :
    (bars.foldl mergeIngest []).length ≤ MAX_CANDLES_CACHE ∧
    bars.foldl mergeFeeder [] = bars.foldl mergeIngest [] ∧
    (List.Chain' (fun a b => a.time ≤ b.time) bars →
      List.Chain' (fun a b => a.time < b.time) (bars.foldl mergeIngest [])) := by
  refine ⟨?_, ?_, ?_⟩
  · exact foldl_mergeIngest_length bars [] (by simp [MAX_CANDLES_CACHE])
  · exact foldl_mergeFeeder_eq bars [] (by simp [MAX_CANDLES_CACHE])
  · intro hbars
    exact foldl_mergeIngest_chain bars hbars [] (by simp) (by simp)

/-- C1 witness: a concrete run with one same-time replacement and ascending
times, instantiating the capacity, equivalence and ordering conclusions. -/
theorem c1_cache_capacity_and_order_witness :
    List.Chain' (fun a b => a.time ≤ b.time)
      [⟨1, 1, 1, 1, 1, 0⟩, ⟨2, 2, 2, 2, 2, 0⟩, (⟨2, 3, 3, 3, 3, 0⟩ : Bar), ⟨5, 4, 4, 4, 4, 0⟩] ∧
    List.Chain' (fun a b => a.time < b.time)
      ([⟨1, 1, 1, 1, 1, 0⟩, ⟨2, 2, 2, 2, 2, 0⟩, (⟨2, 3, 3, 3, 3, 0⟩ : Bar), ⟨5, 4, 4, 4, 4, 0⟩].foldl mergeIngest []) :=
  ⟨by norm_num [List.chain'_cons],
   (c1_cache_capacity_and_order
     [⟨1, 1, 1, 1, 1, 0⟩, ⟨2, 2, 2, 2, 2, 0⟩, (⟨2, 3, 3, 3, 3, 0⟩ : Bar), ⟨5, 4, 4, 4, 4, 0⟩]).2.2
     (by norm_num [List.chain'_cons])⟩

/-- server.js: `const FEEDER_BASE_RETRY_MS = 2000`. -/
def FEEDER_BASE_RETRY_MS : ℤ := 2000

/-- server.js: `const FEEDER_MAX_RETRY_MS = 120000`. -/
def FEEDER_MAX_RETRY_MS : ℤ := 120000

/-- JavaScript `Math.round`: round half up. -/
def jsRound (q : ℚ) : ℤ := ⌊q + 1 / 2⌋

/-- One `scheduleReconnect` step (server.js lines 96-100): starting from the
stored `reconnectMs` value `prev`, compute
`ms = min(round(prev * 1.8), FEEDER_MAX_RETRY_MS)` and then apply jitter
`ms = round(ms * (1 + r * 0.3))` where `r` models the `Math.random()` draw
(`0 ≤ r < 1`). The result is both the scheduled delay and the next stored
`reconnectMs`. -/
def reconnectDelay (prev : ℤ) (r : ℚ) : ℤ :=
  let ms := min (jsRound ((prev : ℚ) * (9 / 5))) FEEDER_MAX_RETRY_MS
  jsRound ((ms : ℚ) * (1 + r * (3 / 10)))

/-- The sequence of delays scheduled by successive `scheduleReconnect` calls,
starting from stored value `prev`, for the given jitter draws. -/
def reconnectDelaysFrom (prev : ℤ) : List ℚ → List ℤ
  | [] => []
  | r :: rs => reconnectDelay prev r :: reconnectDelaysFrom (reconnectDelay prev r) rs

/-- Delays starting from the initial `reconnectMs = FEEDER_BASE_RETRY_MS`. -/
def reconnectDelays (rs : List ℚ) : List ℤ :=
  reconnectDelaysFrom FEEDER_BASE_RETRY_MS rs

/-- C3 counterexample: with seven zero-jitter draws followed by a draw of 1/4
(all in [0,1)), the eighth scheduled delay is 129000 ms, strictly greater than
FEEDER_MAX_RETRY_MS = 120000: the jitter multiplier is applied after the cap
with no re-clamp, so the claim that every delay is at most the cap is false. -/
theorem c3_counterexample :
    ((0 : ℚ) ≤ 1 / 4 ∧ (1 / 4 : ℚ) < 1) ∧
    reconnectDelays [0, 0, 0, 0, 0, 0, 0, 1 / 4] =
      [3600, 6480, 11664, 20995, 37791, 68024, 120000, 129000] ∧
    ¬ ((129000 : ℤ) ≤ FEEDER_MAX_RETRY_MS) := by
  refine ⟨by norm_num, ?_, by norm_num [FEEDER_MAX_RETRY_MS]⟩
  norm_num [reconnectDelays, reconnectDelaysFrom, reconnectDelay, jsRound,
    FEEDER_BASE_RETRY_MS, FEEDER_MAX_RETRY_MS]

lemma jsRound_mono {q q' : ℚ} (h : q ≤ q') : jsRound q ≤ jsRound q' :=
  Int.floor_le_floor (by linarith)

lemma jsRound_intCast (m : ℤ) : jsRound (m : ℚ) = m := by
  unfold jsRound
  rw [Int.floor_eq_iff]
  constructor <;> push_cast <;> linarith

lemma jsRound_le_of_lt {q : ℚ} {m : ℤ} (h : q < m) : jsRound q ≤ m := by
  unfold jsRound
  have h1 : (⌊q + 1 / 2⌋ : ℚ) ≤ q + 1 / 2 := Int.floor_le _
  have h2 : (⌊q + 1 / 2⌋ : ℚ) < (m : ℚ) + 1 := by linarith
  exact_mod_cast Int.lt_add_one_iff.mp (by exact_mod_cast h2)

lemma reconnectDelay_bounds {prev : ℤ} {r : ℚ}
    (hprev : FEEDER_BASE_RETRY_MS ≤ prev) (hr0 : 0 ≤ r) (hr1 : r < 1) :
    FEEDER_BASE_RETRY_MS ≤ reconnectDelay prev r ∧ reconnectDelay prev r ≤ 156000 := by
  simp only [reconnectDelay, FEEDER_BASE_RETRY_MS, FEEDER_MAX_RETRY_MS] at *
  set ms := min (jsRound ((prev : ℚ) * (9 / 5))) 120000 with hms
  have hms_lo : 3600 ≤ ms := by
    have h1 : (3600 : ℚ) ≤ (prev : ℚ) * (9 / 5) := by
      have : (2000 : ℚ) ≤ (prev : ℚ) := by exact_mod_cast hprev
      linarith
    have h2 : jsRound ((3600 : ℤ) : ℚ) ≤ jsRound ((prev : ℚ) * (9 / 5)) :=
      jsRound_mono (by push_cast; linarith)
    rw [jsRound_intCast] at h2
    exact le_min h2 (by norm_num)
  have hms_hi : ms ≤ 120000 := min_le_right _ _
  have hfac_lo : (1 : ℚ) ≤ 1 + r * (3 / 10) := by nlinarith
  have hfac_hi : 1 + r * (3 / 10) < 13 / 10 := by nlinarith
  have hmsq_lo : (0 : ℚ) < (ms : ℚ) := by exact_mod_cast lt_of_lt_of_le (by norm_num) hms_lo
  constructor
  · have h3 : (ms : ℚ) ≤ (ms : ℚ) * (1 + r * (3 / 10)) := by nlinarith
    have h4 := jsRound_mono h3
    rw [jsRound_intCast] at h4
    omega
  · have h5 : (ms : ℚ) * (1 + r * (3 / 10)) < 156000 := by
      have h6 : (ms : ℚ) * (1 + r * (3 / 10)) < (ms : ℚ) * (13 / 10) :=
        mul_lt_mul_of_pos_left hfac_hi hmsq_lo
      have h7 : (ms : ℚ) ≤ 120000 := by exact_mod_cast hms_hi
      nlinarith
    exact jsRound_le_of_lt (by push_cast; linarith)

lemma reconnectDelaysFrom_bounds (rs : List ℚ) :
    ∀ prev : ℤ, FEEDER_BASE_RETRY_MS ≤ prev →
      (∀ r ∈ rs, 0 ≤ r ∧ r < 1) →
      ∀ d ∈ reconnectDelaysFrom prev rs, FEEDER_BASE_RETRY_MS ≤ d ∧ d ≤ 156000 := by
  induction rs with
  | nil => intro prev _ _ d hd; simp [reconnectDelaysFrom] at hd
  | cons r rest ih =>
    intro prev hprev hrs d hd
    have hr := hrs r (by simp)
    have hstep := reconnectDelay_bounds hprev hr.1 hr.2
    simp only [reconnectDelaysFrom, List.mem_cons] at hd
    rcases hd with hd | hd
    · subst hd; exact hstep
    · exact ih (reconnectDelay prev r) hstep.1 (fun x hx => hrs x (by simp [hx])) d hd

/-- C3 amended: every delay scheduled by the feed connector's backoff, for any
jitter draws in [0,1), satisfies `FEEDER_BASE_RETRY_MS ≤ d`, but the upper
bound is `1.3 * FEEDER_MAX_RETRY_MS = 156000`, not `FEEDER_MAX_RETRY_MS`:
the jitter multiplier `(1 + r*0.3)` is applied after the `min` with the cap
and the result is never re-clamped. -/
theorem c3_amended_backoff_bounds (rs : List ℚ) (h : ∀ r ∈ rs, 0 ≤ r ∧ r < 1) :
    ∀ d ∈ reconnectDelays rs, FEEDER_BASE_RETRY_MS ≤ d ∧ d ≤ 156000 :=
  reconnectDelaysFrom_bounds rs FEEDER_BASE_RETRY_MS le_rfl h

/-- C3 amended witness: the bounds instantiated on the concrete jitter
sequence from the counterexample; 129000 is within the amended bounds. -/
theorem c3_amended_backoff_bounds_witness :
    (∀ r ∈ ([0, 0, 0, 0, 0, 0, 0, 1 / 4] : List ℚ), 0 ≤ r ∧ r < 1) ∧
    (FEEDER_BASE_RETRY_MS ≤ (129000 : ℤ) ∧ (129000 : ℤ) ≤ 156000) :=
  ⟨by norm_num,
   c3_amended_backoff_bounds [0, 0, 0, 0, 0, 0, 0, 1 / 4] (by norm_num) 129000
     (by norm_num [reconnectDelays, reconnectDelaysFrom, reconnectDelay, jsRound,
       FEEDER_BASE_RETRY_MS, FEEDER_MAX_RETRY_MS])⟩

/-- `AruAlgo._rsiFromCloses(period)` (server.js lines 158-170): if the close
buffer length L satisfies `L <= period`, return null; otherwise loop
`for (i = L - period + 1; i < L; i++)` accumulating `d = arr[i] - arr[i-1]`
into `gains` (d > 0) or `losses` (|d| otherwise), and return
`100 - 100/(1 + gains/(losses || 1e-9))`. The JS double literal `1e-9` is
modelled as the exact rational 10^-9. -/
def rsiFromCloses (closes : List ℚ) (period : ℕ) : Option ℚ :=
  if closes.length ≤ period then none
  else
    let L := closes.length
    let gl := (List.range' (L - period + 1) (period - 1)).foldl
      (fun (p : ℚ × ℚ) i =>
        let d := closes.getD i 0 - closes.getD (i - 1) 0
        if 0 < d then (p.1 + d, p.2) else (p.1, p.2 + |d|)) (0, 0)
    some (100 - 100 / (1 + gl.1 / (if gl.2 = 0 then 1 / 1000000000 else gl.2)))

/-- Consecutive close-to-close deltas of a close sequence. -/
def deltasOf (l : List ℚ) : List ℚ := List.zipWith (fun a b => b - a) l l.tail

/-- Accumulate (gains, losses) over a list of deltas: a positive delta is
added to gains, otherwise its absolute value is added to losses. -/
def gainsLosses (ds : List ℚ) : ℚ × ℚ :=
  ds.foldl (fun p d => if 0 < d then (p.1 + d, p.2) else (p.1, p.2 + |d|)) (0, 0)

/-- The RSI formula on a list of deltas:
`100 - 100/(1 + gains/(losses || 1e-9))`. -/
def rsiOnDeltas (ds : List ℚ) : ℚ :=
  let gl := gainsLosses ds
  100 - 100 / (1 + gl.1 / (if gl.2 = 0 then 1 / 1000000000 else gl.2))

/-- Modelled from the amended claim wording: RSI over the last `period - 1`
consecutive close-to-close deltas, i.e. the deltas lying within the last
`period` closes; null if the buffer length is at most `period`. -/
def rsiAmendedSpec (closes : List ℚ) (period : ℕ) : Option ℚ :=
  if closes.length ≤ period then none
  else some (rsiOnDeltas (deltasOf (closes.drop (closes.length - period))))

/-- Modelled from the claim as stated (and spec §4.2): RSI over the last
`period` consecutive close-to-close deltas, i.e. the deltas lying within the
last `period + 1` closes; null if the buffer length is at most `period`. -/
def rsiClaimSpec (closes : List ℚ) (period : ℕ) : Option ℚ :=
  if closes.length ≤ period then none
  else some (rsiOnDeltas (deltasOf (closes.drop (closes.length - (period + 1)))))

lemma range'_deltas (closes : List ℚ) (period : ℕ) (h : period < closes.length) :
    (List.range' (closes.length - period + 1) (period - 1)).map
      (fun i => closes.getD i 0 - closes.getD (i - 1) 0) =
    deltasOf (closes.drop (closes.length - period)) := by
  have hdl : (closes.drop (closes.length - period)).length = period := by
    simp [List.length_drop]
    omega
  apply List.ext_getElem
  · simp only [List.length_map, List.length_range', deltasOf, List.length_zipWith,
      List.length_tail, hdl]
    omega
  · intro j h1 h2
    simp only [List.length_map, List.length_range'] at h1
    have hj : j < period - 1 := h1
    have hLb : closes.length - period + 1 + j < closes.length := by omega
    have hLb2 : closes.length - period + j < closes.length := by omega
    have hjd : j + 1 < (closes.drop (closes.length - period)).length := by omega
    have hjd2 : j < (closes.drop (closes.length - period)).length := by omega
    simp only [List.getElem_map, List.getElem_range', deltasOf, List.getElem_zipWith,
      List.getElem_tail, List.getElem_drop]
    rw [List.getD_eq_getElem closes 0 (by omega), List.getD_eq_getElem closes 0 (by omega)]
    congr 2 <;> omega

lemma rsiFromCloses_eq_amended (closes : List ℚ) (period : ℕ) :
    rsiFromCloses closes period = rsiAmendedSpec closes period := by
  unfold rsiFromCloses rsiAmendedSpec
  split
  · rfl
  · rename_i h
    push_neg at h
    rw [← range'_deltas closes period h]
    simp only [rsiOnDeltas, gainsLosses, List.foldl_map]

/-- C4 counterexample: with the 15-close buffer [0, 100, 100, ..., 100] and
period 14, the engine's RSI sums only the last 13 deltas (all zero), giving
RSI = 0, while the claimed last-14-delta window includes the initial +100
jump and gives an RSI close to 100; the two disagree. -/
theorem c4_counterexample :
    rsiFromCloses
      [0, 100, 100, 100, 100, 100, 100, 100, 100, 100, 100, 100, 100, 100, 100] 14 =
      some 0 ∧
    rsiClaimSpec
      [0, 100, 100, 100, 100, 100, 100, 100, 100, 100, 100, 100, 100, 100, 100] 14 =
      some (100 - 100 / (1 + 100 * 1000000000)) ∧
    rsiFromCloses
      [0, 100, 100, 100, 100, 100, 100, 100, 100, 100, 100, 100, 100, 100, 100] 14 ≠
    rsiClaimSpec
      [0, 100, 100, 100, 100, 100, 100, 100, 100, 100, 100, 100, 100, 100, 100] 14 := by
  rw [rsiFromCloses_eq_amended]
  refine ⟨?_, ?_, ?_⟩ <;>
    norm_num [rsiAmendedSpec, rsiClaimSpec, rsiOnDeltas, gainsLosses, deltasOf]

/-- C4 amended: the indicator engine's RSI(period) equals the RSI formula
`100 - 100/(1 + gains/(losses || 1e-9))` computed over the last `period - 1`
(not `period`) consecutive close-to-close deltas — the deltas within the last
`period` closes — and is null whenever the buffer length is at most `period`. -/
theorem c4_amended_rsi_window (closes : List ℚ) (period : ℕ) :
    rsiFromCloses closes period = rsiAmendedSpec closes period :=
  rsiFromCloses_eq_amended closes period

lemma gainsLosses_foldl_nonneg (ds : List ℚ) :
    ∀ p : ℚ × ℚ, 0 ≤ p.1 → 0 ≤ p.2 →
      0 ≤ (ds.foldl (fun p d => if 0 < d then (p.1 + d, p.2) else (p.1, p.2 + |d|)) p).1 ∧
      0 ≤ (ds.foldl (fun p d => if 0 < d then (p.1 + d, p.2) else (p.1, p.2 + |d|)) p).2 := by
  induction ds with
  | nil => intro p h1 h2; simpa using ⟨h1, h2⟩
  | cons d rest ih =>
    intro p h1 h2
    simp only [List.foldl_cons]
    by_cases hd : 0 < d
    · rw [if_pos hd]
      exact ih (p.1 + d, p.2) (by dsimp; linarith) (by dsimp; linarith)
    · rw [if_neg hd]
      exact ih (p.1, p.2 + |d|) (by dsimp; linarith)
        (by dsimp; have := abs_nonneg d; linarith)

lemma gainsLosses_nonneg (ds : List ℚ) :
    0 ≤ (gainsLosses ds).1 ∧ 0 ≤ (gainsLosses ds).2 :=
  gainsLosses_foldl_nonneg ds (0, 0) le_rfl le_rfl

lemma rsiOnDeltas_bounds (ds : List ℚ) :
    0 ≤ rsiOnDeltas ds ∧ rsiOnDeltas ds < 100 := by
  have hgl := gainsLosses_nonneg ds
  unfold rsiOnDeltas
  have hD : (0 : ℚ) < (if (gainsLosses ds).2 = 0 then 1 / 1000000000 else (gainsLosses ds).2) := by
    split
    · norm_num
    · rename_i hne
      exact lt_of_le_of_ne hgl.2 (Ne.symm hne)
  have hrs : 0 ≤ (gainsLosses ds).1 /
      (if (gainsLosses ds).2 = 0 then 1 / 1000000000 else (gainsLosses ds).2) :=
    div_nonneg hgl.1 (le_of_lt hD)
  have h1 : (0 : ℚ) < 1 + (gainsLosses ds).1 /
      (if (gainsLosses ds).2 = 0 then 1 / 1000000000 else (gainsLosses ds).2) := by linarith
  have h2 : 100 / (1 + (gainsLosses ds).1 /
      (if (gainsLosses ds).2 = 0 then 1 / 1000000000 else (gainsLosses ds).2)) ≤ 100 := by
    rw [div_le_iff h1]
    nlinarith
  have h3 : (0 : ℚ) < 100 / (1 + (gainsLosses ds).1 /
      (if (gainsLosses ds).2 = 0 then 1 / 1000000000 else (gainsLosses ds).2)) := by
    positivity
  constructor <;> dsimp only <;> linarith

/-- C7 counterexample: on the strictly increasing closes 1..15 every delta in
the RSI window is a gain, yet the engine's RSI is
`100 - 100/13000000001`, not exactly 100 (the losses denominator is the
1e-9 floor, a finite value, so `100/(1+rs)` is positive): the claim that
RSI equals 100 when all deltas are gains is false in exact arithmetic. -/
theorem c7_counterexample :
    (∀ d ∈ deltasOf (([1, 2, 3, 4, 5, 6, 7, 8, 9, 10, 11, 12, 13, 14, 15] :
        List ℚ).drop 1), 0 < d) ∧
    rsiFromCloses [1, 2, 3, 4, 5, 6, 7, 8, 9, 10, 11, 12, 13, 14, 15] 14 ≠ some 100 := by
  constructor
  · norm_num [deltasOf]
  · rw [rsiFromCloses_eq_amended]
    norm_num [rsiAmendedSpec, rsiOnDeltas, gainsLosses, deltasOf]

/-- C7 amended: every RSI value produced by the indicator engine lies in
[0,100] (indeed strictly below 100), and when every delta in the window is a
gain — the losses accumulator is zero, so the 1e-9 floor kicks in — the RSI
equals `100 - 100/(1 + gains*10^9)`, strictly below (but close to) 100. -/
theorem c7_amended_rsi_range (closes : List ℚ) (period : ℕ) (r : ℚ)
    (h : rsiFromCloses closes period = some r) :
    (0 ≤ r ∧ r ≤ 100) ∧
    ((gainsLosses (deltasOf (closes.drop (closes.length - period)))).2 = 0 →
      r = 100 - 100 /
        (1 + (gainsLosses (deltasOf (closes.drop (closes.length - period)))).1 * 1000000000) ∧
      r < 100) := by
  rw [rsiFromCloses_eq_amended] at h
  unfold rsiAmendedSpec at h
  split at h
  · exact absurd h (by simp)
  · rw [Option.some_inj] at h
    have hb := rsiOnDeltas_bounds (deltasOf (closes.drop (closes.length - period)))
    rw [h] at hb
    refine ⟨⟨hb.1, le_of_lt hb.2⟩, ?_⟩
    intro hl0
    refine ⟨?_, hb.2⟩
    rw [← h]
    simp only [rsiOnDeltas]
    rw [if_pos hl0]
    norm_num [div_div_eq_mul_div]

/-- C7 amended witness: the bounds and the all-gains formula instantiated on
the closes 1..15 (window gains = 13, losses = 0). -/
theorem c7_amended_rsi_range_witness :
    rsiFromCloses [1, 2, 3, 4, 5, 6, 7, 8, 9, 10, 11, 12, 13, 14, 15] 14 =
      some (100 - 100 / 13000000001) ∧
    (0 ≤ (100 : ℚ) - 100 / 13000000001 ∧ (100 : ℚ) - 100 / 13000000001 ≤ 100) :=
  ⟨by rw [rsiFromCloses_eq_amended]
      norm_num [rsiAmendedSpec, rsiOnDeltas, gainsLosses, deltasOf],
   (c7_amended_rsi_range [1, 2, 3, 4, 5, 6, 7, 8, 9, 10, 11, 12, 13, 14, 15] 14
      (100 - 100 / 13000000001)
      (by rw [rsiFromCloses_eq_amended]
          norm_num [rsiAmendedSpec, rsiOnDeltas, gainsLosses, deltasOf])).1⟩

/-- `AruAlgo._smaFromCloses(len)` (server.js lines 135-141): null if fewer
than `len` closes, else the arithmetic mean of the last `len` closes. -/
def smaFromCloses (closes : List ℚ) (len : ℕ) : Option ℚ :=
  if closes.length < len then none
  else some ((closes.drop (closes.length - len)).sum / len)

/-- The EMA recurrence of `AruAlgo._emaFromCloses` (server.js lines 143-156)
without the length guard (it is also inlined twice in `processCandle` for the
previous-tick EMAs): seed with the average of the first `len` values, then
fold `ema = close*k + ema*(1-k)` with `k = 2/(len+1)` over the rest. -/
def emaCalc (arr : List ℚ) (len : ℕ) : ℚ :=
  let k : ℚ := 2 / ((len : ℚ) + 1)
  let seed := (arr.take len).sum / len
  (arr.drop len).foldl (fun ema c => c * k + ema * (1 - k)) seed

/-- `AruAlgo._emaFromCloses(len)`: null if fewer than `len` closes. -/
def emaFromCloses (closes : List ℚ) (len : ℕ) : Option ℚ :=
  if closes.length < len then none else some (emaCalc closes len)

/-- The object returned by `AruAlgo._bollingerFromCloses`. -/
structure BollBands where
  upper : ℚ
  lower : ℚ
  sma : ℚ
  std : ℚ
deriving DecidableEq

/-- `AruAlgo._bollingerFromCloses(len, numStd)` (server.js lines 172-187):
null if fewer than `len` closes, else SMA(len) ± numStd·std where std is the
square root (`sqrtF`, abstracting `Math.sqrt`) of the population variance of
the last `len` closes. -/
def bollingerFromCloses (sqrtF : ℚ → ℚ) (closes : List ℚ) (len : ℕ) (numStd : ℚ) :
    Option BollBands :=
  if closes.length < len then none
  else
    let window := closes.drop (closes.length - len)
    let sma := window.sum / len
    let variance := (window.map (fun x => (x - sma) * (x - sma))).sum / len
    let std := sqrtF variance
    some ⟨sma + numStd * std, sma - numStd * std, sma, std⟩

/-- The mutable state of an `AruAlgo` indicator instance (server.js lines
118-124): the rolling candle list, the parallel close-price list, and the
`lastSignal` side. -/
structure AruAlgo where
  candles : List Bar
  closes : List ℚ
  lastSignal : Option String
deriving DecidableEq

/-- `AruAlgo._pushCandle` (server.js lines 126-133): append the candle and its
close, then shift both lists when more than 5000 candles are held. -/
def pushCandle (st : AruAlgo) (c : Bar) : AruAlgo :=
  let candles := st.candles ++ [c]
  let closes := st.closes ++ [c.close]
  if 5000 < candles.length then ⟨candles.tail, closes.tail, st.lastSignal⟩
  else ⟨candles, closes, st.lastSignal⟩

/-- A trading signal `{side, reason, time, price}` (server.js). -/
structure Signal where
  side : String
  reason : String
  time : ℤ
  price : ℚ
deriving DecidableEq

/-- The snapshot object assembled by `AruAlgo.processCandle`; `none` models a
field left absent from the JS object. -/
structure IndicatorSnapshot where
  ready : Bool
  time : ℤ
  close : ℚ
  smaShort : Option ℚ
  smaLong : Option ℚ
  emaShort : Option ℚ
  emaLong : Option ℚ
  rsi : Option ℚ
  bollinger : Option BollBands
  signal : Option Signal
deriving DecidableEq

/-- The SMA-crossover rule block of `processCandle` (server.js lines 209-231):
requires at least 31 closes and both SMAs; previous-tick SMAs are summed over
the windows excluding the newest close; an up-cross yields a buy, a
down-cross a sell. -/
def smaRuleSignal (closes : List ℚ) (c : Bar) : Option Signal :=
  let L := closes.length
  match smaFromCloses closes 10, smaFromCloses closes 30 with
  | some smaShort, some smaLong =>
    if 31 ≤ L then
      let prevSmaShort : Option ℚ :=
        if 11 ≤ L then some ((closes.dropLast.drop (L - 11)).sum / 10) else none
      let prevSmaLong : Option ℚ :=
        if 31 ≤ L then some ((closes.dropLast.drop (L - 31)).sum / 30) else none
      match prevSmaShort, prevSmaLong with
      | some pss, some psl =>
        if pss ≤ psl ∧ smaLong < smaShort then some ⟨"buy", "sma_cross", c.time, c.close⟩
        else if psl ≤ pss ∧ smaShort < smaLong then some ⟨"sell", "sma_cross", c.time, c.close⟩
        else none
      | _, _ => none
    else none
  | _, _ => none

/-- The EMA-crossover rule block of `processCandle` (server.js lines 233-260):
previous-tick EMAs are recomputed over the buffer excluding the newest close
via the inlined seeded-EMA computation. -/
def emaRuleSignal (closes : List ℚ) (c : Bar) : Option Signal :=
  let L := closes.length
  match emaFromCloses closes 10, emaFromCloses closes 30 with
  | some emaShort, some emaLong =>
    if 31 ≤ L then
      let closesPrev := closes.dropLast
      let emaShortPrev : Option ℚ :=
        if 10 ≤ closesPrev.length then some (emaCalc closesPrev 10) else none
      let emaLongPrev : Option ℚ :=
        if 30 ≤ closesPrev.length then some (emaCalc closesPrev 30) else none
      match emaShortPrev, emaLongPrev with
      | some esp, some elp =>
        if esp ≤ elp ∧ emaLong < emaShort then some ⟨"buy", "ema_cross", c.time, c.close⟩
        else if elp ≤ esp ∧ emaShort < emaLong then some ⟨"sell", "ema_cross", c.time, c.close⟩
        else none
      | _, _ => none
    else none
  | _, _ => none

/-- The RSI edge rule block of `processCandle` (server.js lines 262-275): the
previous RSI is recomputed over the closes excluding the newest one — the
loop `for (i = prevLen - 13; i < prevLen; i++)` sums 13 deltas — and the
rule fires on the 30/70 threshold crossings. -/
def rsiRuleSignal (closes : List ℚ) (c : Bar) : Option Signal :=
  match rsiFromCloses closes 14 with
  | some rsi =>
    if 1 < closes.length then
      let prevCloses := closes.dropLast
      if 14 < prevCloses.length then
        let gl := (List.range' (prevCloses.length - 13) 13).foldl
          (fun (p : ℚ × ℚ) i =>
            let d := prevCloses.getD i 0 - prevCloses.getD (i - 1) 0
            if 0 < d then (p.1 + d, p.2) else (p.1, p.2 + |d|)) (0, 0)
        let prevRsi := 100 - 100 / (1 + gl.1 / (if gl.2 = 0 then 1 / 1000000000 else gl.2))
        if prevRsi < 30 ∧ 30 ≤ rsi then some ⟨"buy", "rsi_oversold", c.time, c.close⟩
        else if 70 < prevRsi ∧ rsi ≤ 70 then some ⟨"sell", "rsi_overbought", c.time, c.close⟩
        else none
      else none
    else none
  | none => none

/-- The Bollinger mean-reversion rule block of `processCandle` (server.js
lines 277-281): level-triggered on the band bounds. -/
def bollRuleSignal (sqrtF : ℚ → ℚ) (closes : List ℚ) (c : Bar) : Option Signal :=
  match bollingerFromCloses sqrtF closes 20 2 with
  | some boll =>
    if c.close ≤ boll.lower then some ⟨"buy", "boll_lower", c.time, c.close⟩
    else if boll.upper ≤ c.close then some ⟨"sell", "boll_upper", c.time, c.close⟩
    else none
  | none => none

/-- `AruAlgo.processCandle` (server.js lines 189-285): push the candle, compute
the indicator values over the updated buffer, assemble the snapshot (SMA and
EMA pairs are attached only when both of the pair are non-null), then run the
four rule blocks in order SMA, EMA, RSI, Bollinger, each assignment to
`out.signal` overwriting the previous one; the SMA rule also updates
`lastSignal`. Returns (updated state, snapshot). -/
def processCandle (sqrtF : ℚ → ℚ) (st : AruAlgo) (candle : Bar) :
    AruAlgo × IndicatorSnapshot :=
  let c := candle
  let st1 := pushCandle st c
  let closes := st1.closes
  let smaShort := smaFromCloses closes 10
  let smaLong := smaFromCloses closes 30
  let emaShort := emaFromCloses closes 10
  let emaLong := emaFromCloses closes 30
  let rsi := rsiFromCloses closes 14
  let boll := bollingerFromCloses sqrtF closes 20 2
  let outSmaShort := match smaShort, smaLong with | some a, some _ => some a | _, _ => none
  let outSmaLong := match smaShort, smaLong with | some _, some b => some b | _, _ => none
  let outEmaShort := match emaShort, emaLong with | some a, some _ => some a | _, _ => none
  let outEmaLong := match emaShort, emaLong with | some _, some b => some b | _, _ => none
  let s1 : Option Signal :=
    match smaRuleSignal closes c with
    | some s => some s
    | none => none
  let lastSignal1 : Option String :=
    match smaRuleSignal closes c with
    | some s => some s.side
    | none => st1.lastSignal
  let s2 : Option Signal :=
    match emaRuleSignal closes c with
    | some s => some s
    | none => s1
  let s3 : Option Signal :=
    match rsiRuleSignal closes c with
    | some s => some s
    | none => s2
  let s4 : Option Signal :=
    match bollRuleSignal sqrtF closes c with
    | some s => some s
    | none => s3
  (⟨st1.candles, st1.closes, lastSignal1⟩,
   ⟨true, c.time, c.close, outSmaShort, outSmaLong, outEmaShort, outEmaLong, rsi, boll, s4⟩)

/-- C8: when several rule families qualify on the same bar, the `signal` field
of the snapshot returned by `processCandle` is exactly the prioritized choice
in which the later-evaluated rule of the fixed order {SMA, EMA, RSI,
Bollinger} wins: Bollinger over RSI over EMA over SMA. Earlier qualifying
rules' signals are overwritten (`Option.or` prefers its first argument). -/
theorem c8_signal_overwrite (sqrtF : ℚ → ℚ) (st : AruAlgo) (c : Bar) :
    ((processCandle sqrtF st c).2).signal =
      Option.or (bollRuleSignal sqrtF (pushCandle st c).closes c)
        (Option.or (rsiRuleSignal (pushCandle st c).closes c)
          (Option.or (emaRuleSignal (pushCandle st c).closes c)
            (smaRuleSignal (pushCandle st c).closes c))) := by
  simp only [processCandle]
  cases h1 : smaRuleSignal (pushCandle st c).closes c <;>
  cases h2 : emaRuleSignal (pushCandle st c).closes c <;>
  cases h3 : rsiRuleSignal (pushCandle st c).closes c <;>
  cases h4 : bollRuleSignal sqrtF (pushCandle st c).closes c <;>
  simp [h1, h2, h3, h4, Option.or]

lemma smaFromCloses_eq_none_iff (closes : List ℚ) (len : ℕ) :
    smaFromCloses closes len = none ↔ closes.length < len := by
  unfold smaFromCloses
  split <;> simp_all

lemma emaFromCloses_eq_none_iff (closes : List ℚ) (len : ℕ) :
    emaFromCloses closes len = none ↔ closes.length < len := by
  unfold emaFromCloses
  split <;> simp_all

/-- C9: in every snapshot returned by `processCandle`, `smaShort` is present
iff `smaLong` is present and `emaShort` is present iff `emaLong` is present;
in particular with fewer than 30 closes in the updated buffer (e.g. a buffer
of 10 ≤ length < 30), the individually computable short-window values are
still omitted because their long-window partner is not computable. -/
theorem c9_snapshot_pairing (sqrtF : ℚ → ℚ) (st : AruAlgo) (c : Bar) :
    (((processCandle sqrtF st c).2).smaShort.isSome ↔
      ((processCandle sqrtF st c).2).smaLong.isSome) ∧
    (((processCandle sqrtF st c).2).emaShort.isSome ↔
      ((processCandle sqrtF st c).2).emaLong.isSome) ∧
    ((pushCandle st c).closes.length < 30 →
      ((processCandle sqrtF st c).2).smaShort = none ∧
      ((processCandle sqrtF st c).2).emaShort = none) := by
  refine ⟨?_, ?_, ?_⟩
  · cases h1 : smaFromCloses (pushCandle st c).closes 10 <;>
    cases h2 : smaFromCloses (pushCandle st c).closes 30 <;>
    simp [processCandle, h1, h2]
  · cases h1 : emaFromCloses (pushCandle st c).closes 10 <;>
    cases h2 : emaFromCloses (pushCandle st c).closes 30 <;>
    simp [processCandle, h1, h2]
  · intro hlen
    have h2 : smaFromCloses (pushCandle st c).closes 30 = none :=
      (smaFromCloses_eq_none_iff _ _).mpr hlen
    have h4 : emaFromCloses (pushCandle st c).closes 30 = none :=
      (emaFromCloses_eq_none_iff _ _).mpr hlen
    cases h1 : smaFromCloses (pushCandle st c).closes 10 <;>
    cases h3 : emaFromCloses (pushCandle st c).closes 10 <;>
    simp [processCandle, h1, h2, h3, h4]

/-- C9 witness: a 14-close buffer plus one incoming candle (15 closes,
10 ≤ 15 < 30): `smaShort` and `emaShort` are individually computable but both
are omitted from the snapshot. -/
theorem c9_snapshot_pairing_witness :
    ((pushCandle ⟨List.replicate 14 ⟨0, 1, 1, 1, 1, 0⟩, List.replicate 14 1, none⟩
        ⟨15, 2, 2, 2, 2, 0⟩).closes.length < 30) ∧
    (((processCandle (fun _ => 0)
        ⟨List.replicate 14 ⟨0, 1, 1, 1, 1, 0⟩, List.replicate 14 1, none⟩
        ⟨15, 2, 2, 2, 2, 0⟩).2).smaShort = none ∧
     ((processCandle (fun _ => 0)
        ⟨List.replicate 14 ⟨0, 1, 1, 1, 1, 0⟩, List.replicate 14 1, none⟩
        ⟨15, 2, 2, 2, 2, 0⟩).2).emaShort = none) :=
  ⟨by norm_num [pushCandle],
   (c9_snapshot_pairing (fun _ => 0)
      ⟨List.replicate 14 ⟨0, 1, 1, 1, 1, 0⟩, List.replicate 14 1, none⟩
      ⟨15, 2, 2, 2, 2, 0⟩).2.2 (by norm_num [pushCandle])⟩

/-- The per-pair server state touched by the `/ingest` handler: the candle
cache entry and the (optional) indicator instance for the pair key. -/
structure IngestState where
  cache : List Bar
  inst : Option AruAlgo

/-- The `/ingest` handler body for one pair (server.js lines 502-526): merge
the candle into the cache; if no indicator instance exists yet, create one and
seed it by replaying the whole merged cache (which already contains the
incoming candle); then process the incoming candle once more on the instance.
Returns the updated state and the snapshot from the final `processCandle`. -/
def ingest (sqrtF : ℚ → ℚ) (s : IngestState) (ck : Bar) :
    IngestState × IndicatorSnapshot :=
  let arr := mergeIngest s.cache ck
  let inst :=
    match s.inst with
    | some i => i
    | none => arr.foldl (fun st c => (processCandle sqrtF st c).1) ⟨[], [], none⟩
  let r := processCandle sqrtF inst ck
  (⟨arr, some r.1⟩, r.2)

lemma processCandle_fst_closes (sqrtF : ℚ → ℚ) (st : AruAlgo) (c : Bar) :
    ((processCandle sqrtF st c).1).closes = (pushCandle st c).closes := rfl

lemma processCandle_fst_candles (sqrtF : ℚ → ℚ) (st : AruAlgo) (c : Bar) :
    ((processCandle sqrtF st c).1).candles = (pushCandle st c).candles := rfl

lemma pushCandle_no_evict (st : AruAlgo) (c : Bar)
    (h : st.candles.length + 1 ≤ 5000) :
    pushCandle st c = ⟨st.candles ++ [c], st.closes ++ [c.close], st.lastSignal⟩ := by
  simp only [pushCandle]
  rw [if_neg]
  simp only [List.length_append, List.length_cons, List.length_nil]
  omega

lemma foldl_processCandle_closes (sqrtF : ℚ → ℚ) (l : List Bar) :
    ∀ st : AruAlgo, st.candles.length + l.length ≤ 5000 →
      (l.foldl (fun st c => (processCandle sqrtF st c).1) st).closes =
        st.closes ++ l.map Bar.close ∧
      (l.foldl (fun st c => (processCandle sqrtF st c).1) st).candles =
        st.candles ++ l := by
  induction l with
  | nil => intro st _; simp
  | cons b rest ih =>
    intro st hcap
    simp only [List.length_cons] at hcap
    have hpush := pushCandle_no_evict st b (by omega)
    have hnext : ((processCandle sqrtF st b).1).candles = st.candles ++ [b] := by
      rw [processCandle_fst_candles, hpush]
    have hnextc : ((processCandle sqrtF st b).1).closes = st.closes ++ [b.close] := by
      rw [processCandle_fst_closes, hpush]
    have hcap' : ((processCandle sqrtF st b).1).candles.length + rest.length ≤ 5000 := by
      rw [hnext]
      simp only [List.length_append, List.length_cons, List.length_nil]
      omega
    have hrec := ih ((processCandle sqrtF st b).1) hcap'
    simp only [List.foldl_cons, List.map_cons]
    rw [hrec.1, hrec.2, hnext, hnextc]
    simp

/-- C10: on an `/ingest` call for a pair with no indicator instance yet, the
candle is first merged into the cache, the merged cache (already ending in
the incoming candle) is replayed to seed the fresh instance, and the candle
is then processed again — so the instance's close buffer is the closes of the
merged cache followed by one more copy of the candle's close, i.e. the
candle's close appears (at least) twice at the end. -/
theorem c10_double_process (sqrtF : ℚ → ℚ) (s : IngestState) (ck : Bar)
    (h0 : s.inst = none) (h1 : s.cache.length ≤ MAX_CANDLES_CACHE) :
    Option.map AruAlgo.closes ((ingest sqrtF s ck).1).inst =
      some ((mergeIngest s.cache ck).dropLast.map Bar.close ++ [ck.close, ck.close]) := by
  have hmlen : (mergeIngest s.cache ck).length ≤ MAX_CANDLES_CACHE :=
    mergeIngest_length s.cache ck h1
  have hseed := foldl_processCandle_closes sqrtF (mergeIngest s.cache ck) ⟨[], [], none⟩
    (by simp only [List.length_nil]; simp [MAX_CANDLES_CACHE] at hmlen; omega)
  have hmne : mergeIngest s.cache ck ≠ [] := by
    intro he
    have := mergeIngest_getLast s.cache ck
    rw [he] at this
    simp at this
  have hsplit : (mergeIngest s.cache ck).dropLast ++ [ck] = mergeIngest s.cache ck := by
    have hgl := mergeIngest_getLast s.cache ck
    rw [List.getLast?_eq_getLast _ hmne, Option.some_inj] at hgl
    have hdc := List.dropLast_concat_getLast hmne
    rw [hgl] at hdc
    exact hdc
  simp only [ingest, h0]
  rw [Option.map_some', Option.some_inj]
  have hseedlen : ((mergeIngest s.cache ck).foldl
      (fun st c => (processCandle sqrtF st c).1) ⟨[], [], none⟩).candles.length + 1 ≤ 5000 := by
    rw [hseed.2]
    simp only [List.nil_append]
    simp [MAX_CANDLES_CACHE] at hmlen
    omega
  rw [processCandle_fst_closes, pushCandle_no_evict _ _ hseedlen]
  rw [hseed.1]
  simp only [List.nil_append]
  conv_lhs => rw [← hsplit]
  simp

/-- C10 witness: ingesting one candle into a pair with empty cache and no
instance leaves the instance's close buffer holding the candle's close twice. -/
theorem c10_double_process_witness :
    ((⟨[], none⟩ : IngestState).inst = none ∧
      (⟨[], none⟩ : IngestState).cache.length ≤ MAX_CANDLES_CACHE) ∧
    Option.map AruAlgo.closes
      ((ingest (fun _ => 0) ⟨[], none⟩ ⟨1, 2, 2, 2, 2, 0⟩).1).inst = some [2, 2] :=
  ⟨⟨rfl, by norm_num [MAX_CANDLES_CACHE]⟩, by
    have h := c10_double_process (fun _ => 0) ⟨[], none⟩ ⟨1, 2, 2, 2, 2, 0⟩ rfl
      (by norm_num [MAX_CANDLES_CACHE])
    simpa [mergeIngest, mergeRaw, MAX_CANDLES_CACHE] using h⟩

/-- The `/backtest` request configuration after the handler's defaulting and
clamping (server.js lines 626-633 and 670-674). -/
structure BtConfig where
  symbol : String
  strategy : String
  limit : ℕ
  initialCapital : ℚ
  sizePct : ℚ
  slippageBps : ℚ
  commissionPct : ℚ
  smaShort : ℕ
  smaLong : ℕ
  rsiPeriod : ℕ
  rsiOverbought : ℚ
  rsiOversold : ℚ
deriving DecidableEq

/-- A trade record pushed by the backtest loop. -/
structure Trade where
  ts : ℤ
  symbol : String
  side : String
  entry_price : Option ℚ
  exit_price : Option ℚ
  qty : ℚ
  pnl : Option ℚ
  note : String
deriving DecidableEq

/-- An equity-curve point pushed by the backtest loop. -/
structure EquityPoint where
  time : ℤ
  equity : ℚ
deriving DecidableEq

/-- The metrics object of a successful backtest (server.js lines 668, 738-742). -/
structure BtMetrics where
  initialCapital : ℚ
  finalEquity : ℚ
  totalReturnPct : ℚ
  trades : ℕ
  startTime : ℤ
  endTime : ℤ
deriving DecidableEq

/-- The `/backtest` handler outcome: a 200 payload or a status/error pair. -/
inductive BtResponse where
  | ok (metrics : BtMetrics) (trades : List Trade) (equity : List EquityPoint) : BtResponse
  | err (status : ℕ) (error : String) : BtResponse
deriving DecidableEq

/-- The local `SMA(data, idx, len)` of the backtest (server.js lines 646-651):
null when `idx - len + 1 < 0`, else the mean of closes over
`[idx-len+1, idx]`. The index is an integer as in JS, so `idx - 1` at
`idx = 0` is genuinely negative. -/
def btSMA (data : List Bar) (idx : ℤ) (len : ℕ) : Option ℚ :=
  let start := idx - len + 1
  if start < 0 then none
  else some ((((List.range len).map
      (fun j => (data.getD (start.toNat + j) default).close)).sum) / len)

/-- The local `RSI(data, idx, period)` of the backtest (server.js lines
652-661): null when `idx - period < 0`, else the RSI formula over the
`period` deltas `data[i].close - data[i-1].close`, `i ∈ [idx-period+1, idx]`
(note: `period` deltas here, unlike the indicator engine's `period - 1`). -/
def btRSI (data : List Bar) (idx : ℤ) (period : ℕ) : Option ℚ :=
  if idx - period < 0 then none
  else
    let gl := ((List.range period).map (fun j => idx - period + 1 + j)).foldl
      (fun (p : ℚ × ℚ) i =>
        let d := (data.getD i.toNat default).close - (data.getD (i - 1).toNat default).close
        if 0 < d then (p.1 + d, p.2) else (p.1, p.2 + |d|)) (0, 0)
    some (100 - 100 / (1 + gl.1 / (if gl.2 = 0 then 1 / 1000000000 else gl.2)))

/-- The signal computation at loop index `i` (server.js lines 677-695):
edge-triggered SMA cross for strategy "sma", edge-triggered RSI threshold
crossing for strategy "rsi", otherwise no signal. -/
def btSignal (cfg : BtConfig) (arr : List Bar) (i : ℤ) : Option String :=
  if cfg.strategy = "sma" then
    match btSMA arr i cfg.smaShort, btSMA arr i cfg.smaLong with
    | some sShort, some sLong =>
      match btSMA arr (i - 1) cfg.smaShort, btSMA arr (i - 1) cfg.smaLong with
      | some sShortPrev, some sLongPrev =>
        if sShortPrev ≤ sLongPrev ∧ sLong < sShort then some "buy"
        else if sLongPrev ≤ sShortPrev ∧ sShort < sLong then some "sell"
        else none
      | _, _ => none
    | _, _ => none
  else if cfg.strategy = "rsi" then
    match btRSI arr i cfg.rsiPeriod with
    | some rsi =>
      match btRSI arr (i - 1) cfg.rsiPeriod with
      | some prevRsi =>
        if prevRsi < cfg.rsiOversold ∧ cfg.rsiOversold ≤ rsi then some "buy"
        else if cfg.rsiOverbought < prevRsi ∧ rsi ≤ cfg.rsiOverbought then some "sell"
        else none
      | none => none
    | none => none
  else none

/-- The running state of the backtest loop. -/
structure BtState where
  cash : ℚ
  position : ℚ
  entryPrice : ℚ
  trades : List Trade
  equity : List EquityPoint
deriving DecidableEq

/-- One iteration of the backtest loop at index `i` (server.js lines 676-721):
a buy signal with no open position fills at
`nextBar.open * (1 + slippage_bps/10000) * (1 + commission_pct)` with size
`(cash * size_pct) / fillPrice`; a sell signal with an open position closes
it at the mirrored price; then an equity point marking to the current close
is appended. -/
def btStep (cfg : BtConfig) (arr : List Bar) (st : BtState) (i : ℕ) : BtState :=
  let signal := btSignal cfg arr i
  let st1 :=
    if signal = some "buy" ∧ st.position = 0 then
      match arr[i + 1]? with
      | some nextBar =>
        let execPrice := nextBar.opn * (1 + cfg.slippageBps / 10000) * (1 + cfg.commissionPct)
        let qty := st.cash * cfg.sizePct / execPrice
        { cash := st.cash - qty * execPrice, position := qty, entryPrice := execPrice,
          trades := st.trades ++ [⟨nextBar.time, cfg.symbol, "buy", some execPrice, none, qty,
            none, cfg.strategy ++ "_buy"⟩],
          equity := st.equity }
      | none => st
    else if signal = some "sell" ∧ 0 < st.position then
      match arr[i + 1]? with
      | some nextBar =>
        let execPrice := nextBar.opn * (1 - cfg.slippageBps / 10000) * (1 - cfg.commissionPct)
        let qty := st.position
        let pnl := qty * (execPrice - st.entryPrice)
        { cash := st.cash + qty * execPrice, position := 0, entryPrice := st.entryPrice,
          trades := st.trades ++ [⟨nextBar.time, cfg.symbol, "sell", none, some execPrice, qty,
            some pnl, cfg.strategy ++ "_sell"⟩],
          equity := st.equity }
      | none => st
    else st
  let marketValue := if 0 < st1.position then st1.position * (arr.getD i default).close else 0
  { st1 with equity := st1.equity ++ [⟨(arr.getD i default).time, st1.cash + marketValue⟩] }

/-- The pure core of the `/backtest` handler (server.js lines 642-742), taking
the resolved bar array (cache or upstream fetch) as input: fewer than 30 bars
is a 400 `not_enough_data` failure with no results; otherwise keep the last
`limit` bars sorted by time, run the loop for `i` from 1 to `length - 2`,
force-close any open position at the last close with note `exit_on_finish`,
and assemble metrics, trades and the equity curve. -/
def runBacktest (cfg : BtConfig) (arr0 : List Bar) : BtResponse :=
  if arr0.length < 30 then .err 400 "not_enough_data"
  else
    let arr := (arr0.drop (arr0.length - cfg.limit)).mergeSort (fun a b => a.time ≤ b.time)
    let st0 : BtState := ⟨cfg.initialCapital, 0, 0, [], []⟩
    let stL := (List.range' 1 (arr.length - 2)).foldl (btStep cfg arr) st0
    let st2 :=
      if 0 < stL.position then
        let lastBar := (arr.getLast?).getD default
        let exitPrice := lastBar.close * (1 - cfg.slippageBps / 10000) * (1 - cfg.commissionPct)
        let qty := stL.position
        let pnl := qty * (exitPrice - stL.entryPrice)
        { cash := stL.cash + qty * exitPrice, position := 0, entryPrice := stL.entryPrice,
          trades := stL.trades ++ [⟨lastBar.time, cfg.symbol, "sell", none, some exitPrice, qty,
            some pnl, "exit_on_finish"⟩],
          equity := stL.equity ++ [⟨lastBar.time, stL.cash + qty * exitPrice⟩] }
      else stL
    let finalEquity :=
      match st2.equity.getLast? with
      | some e => e.equity
      | none => st2.cash
    let totalReturn := (finalEquity - cfg.initialCapital) / cfg.initialCapital * 100
    .ok ⟨cfg.initialCapital, finalEquity, totalReturn, st2.trades.length,
        ((arr.getD 0 default).time), (((arr.getLast?).getD default).time)⟩
      st2.trades st2.equity

/-- C2: at any backtest loop index where a buy signal fires while no position
is open and the next bar exists, the fill price is
`nextBar.open * (1 + slippage_bps/10000) * (1 + commission_pct)` and the
opened position size is `(cash * size_pct) / fillPrice`. -/
theorem c2_buy_execution (cfg : BtConfig) (arr : List Bar) (st : BtState) (i : ℕ)
    (hb : btSignal cfg arr i = some "buy") (hp : st.position = 0)
    (nb : Bar) (hn : arr[i + 1]? = some nb) :
    (btStep cfg arr st i).entryPrice =
      nb.opn * (1 + cfg.slippageBps / 10000) * (1 + cfg.commissionPct) ∧
    (btStep cfg arr st i).position =
      st.cash * cfg.sizePct /
        (nb.opn * (1 + cfg.slippageBps / 10000) * (1 + cfg.commissionPct)) := by
  simp only [btStep, hb, hp, hn]
  norm_num

/-- C2 witness: strategy "sma" with windows 1/2, closes 10, 10, 20 produce a
buy at index 2; with `nextBar.open = 100`, `slippage_bps = 5` and
`commission_pct = 0.0005 = 1/2000` the fill price is exactly
`100 * 1.0005 * 1.0005` and the position size is `(10000 * 0.1)` over it. -/
theorem c2_buy_execution_witness :
    btSignal ⟨"BTCUSDT", "sma", 2000, 10000, 1 / 10, 5, 1 / 2000, 1, 2, 14, 70, 30⟩
      [⟨0, 10, 10, 10, 10, 0⟩, ⟨1, 10, 10, 10, 10, 0⟩,
       ⟨2, 20, 20, 20, 20, 0⟩, ⟨3, 100, 100, 100, 100, 0⟩] 2 = some "buy" ∧
    (⟨10000, 0, 0, [], []⟩ : BtState).position = 0 ∧
    (btStep ⟨"BTCUSDT", "sma", 2000, 10000, 1 / 10, 5, 1 / 2000, 1, 2, 14, 70, 30⟩
      [⟨0, 10, 10, 10, 10, 0⟩, ⟨1, 10, 10, 10, 10, 0⟩,
       ⟨2, 20, 20, 20, 20, 0⟩, ⟨3, 100, 100, 100, 100, 0⟩]
      ⟨10000, 0, 0, [], []⟩ 2).entryPrice = 100 * (10005 / 10000) * (10005 / 10000) := by
  have hb : btSignal ⟨"BTCUSDT", "sma", 2000, 10000, 1 / 10, 5, 1 / 2000, 1, 2, 14, 70, 30⟩
      [⟨0, 10, 10, 10, 10, 0⟩, ⟨1, 10, 10, 10, 10, 0⟩,
       ⟨2, 20, 20, 20, 20, 0⟩, ⟨3, 100, 100, 100, 100, 0⟩] 2 = some "buy" := by
    norm_num [btSignal, btSMA, List.range_succ, List.getD,
      show Int.toNat 0 = 0 from rfl, show Int.toNat 1 = 1 from rfl,
      show Int.toNat 2 = 2 from rfl, show Int.toNat 3 = 3 from rfl,
      List.getElem?_cons_succ, List.getElem?_cons_zero]
  have h := c2_buy_execution
    ⟨"BTCUSDT", "sma", 2000, 10000, 1 / 10, 5, 1 / 2000, 1, 2, 14, 70, 30⟩
    [⟨0, 10, 10, 10, 10, 0⟩, ⟨1, 10, 10, 10, 10, 0⟩,
     ⟨2, 20, 20, 20, 20, 0⟩, ⟨3, 100, 100, 100, 100, 0⟩]
    ⟨10000, 0, 0, [], []⟩ 2 hb rfl ⟨3, 100, 100, 100, 100, 0⟩ rfl
  refine ⟨hb, rfl, ?_⟩
  rw [h.1]
  norm_num

/-- C5 counterexample: on any input with fewer than 30 bars the backtest fails
with the error string `not_enough_data`, not the claimed `insufficient_data`. -/
theorem c5_counterexample :
    runBacktest ⟨"BTCUSDT", "sma", 2000, 10000, 1 / 10, 5, 1 / 2000, 10, 30, 14, 70, 30⟩ [] =
      BtResponse.err 400 "not_enough_data" ∧
    "not_enough_data" ≠ "insufficient_data" := by
  constructor
  · simp [runBacktest]
  · decide

/-- C5 amended: whenever fewer than 30 bars are available the backtest fails
as a 400 response with the typed error `not_enough_data` (the code's name for
the insufficient-data failure), returning no partial results — no metrics,
trades or equity accompany the error constructor. -/
theorem c5_amended_insufficient_data (cfg : BtConfig) (arr : List Bar)
    (h : arr.length < 30) :
    runBacktest cfg arr = BtResponse.err 400 "not_enough_data" := by
  simp only [runBacktest, if_pos h]

/-- C5 amended witness: the failure instantiated on an empty bar list. -/
theorem c5_amended_insufficient_data_witness :
    ([] : List Bar).length < 30 ∧
    runBacktest ⟨"BTCUSDT", "sma", 2000, 10000, 1 / 10, 5, 1 / 2000, 10, 30, 14, 70, 30⟩ [] =
      BtResponse.err 400 "not_enough_data" :=
  ⟨by norm_num,
   c5_amended_insufficient_data
     ⟨"BTCUSDT", "sma", 2000, 10000, 1 / 10, 5, 1 / 2000, 10, 30, 14, 70, 30⟩ [] (by norm_num)⟩

/-- C6: the backtest is a deterministic function of (config, bars): it is
embedded with no random input (unlike the reconnect backoff, which needs an
explicit jitter argument), so two runs on identical inputs return identical
metrics, trades and equity. -/
theorem c6_backtest_deterministic (cfg1 cfg2 : BtConfig) (arr1 arr2 : List Bar)
    (hc : cfg1 = cfg2) (ha : arr1 = arr2) :
    runBacktest cfg1 arr1 = runBacktest cfg2 arr2 := by
  subst hc
  subst ha
  rfl

/-- C6 witness: two identical concrete runs coincide. -/
theorem c6_backtest_deterministic_witness :
    ((⟨"BTCUSDT", "sma", 2000, 10000, 1 / 10, 5, 1 / 2000, 10, 30, 14, 70, 30⟩ : BtConfig) =
      ⟨"BTCUSDT", "sma", 2000, 10000, 1 / 10, 5, 1 / 2000, 10, 30, 14, 70, 30⟩ ∧
     ([] : List Bar) = []) ∧
    runBacktest ⟨"BTCUSDT", "sma", 2000, 10000, 1 / 10, 5, 1 / 2000, 10, 30, 14, 70, 30⟩ [] =
      runBacktest ⟨"BTCUSDT", "sma", 2000, 10000, 1 / 10, 5, 1 / 2000, 10, 30, 14, 70, 30⟩ [] :=
  ⟨⟨rfl, rfl⟩,
   c6_backtest_deterministic
     ⟨"BTCUSDT", "sma", 2000, 10000, 1 / 10, 5, 1 / 2000, 10, 30, 14, 70, 30⟩
     ⟨"BTCUSDT", "sma", 2000, 10000, 1 / 10, 5, 1 / 2000, 10, 30, 14, 70, 30⟩
     [] [] rfl rfl⟩
